import Mathlib

/-!
Verification of the token-stream core of the cppcheck repository
(`src/lib/token.cpp`): token classification, stream deletion, bracket
links, the pattern matcher, AST parent attachment, and the value-fact
store (`Token::addValue` and its contradiction-resolution helpers).

Every definition is a shallow embedding of the corresponding C++
function in `src/lib/token.cpp`, translated statement by statement.
Types declared outside the excerpt (the `ValueFlow::Value` record and
the `Token` flag accessors from the headers) are modelled from the
specification and carry a doc comment saying so.
-/

namespace Cppcheck

/-! ## Token kinds (spec section 3: the `kind` enum, `Token::Type` in the source tree) -/

/-- Modelled from the spec: the token-kind enumeration listed in the data
model (the `Token::Type` enum lives in a header outside this excerpt).
Constructor names follow the source spelling (`eVariable`, `eType`, ...). -/
inductive TokType where
  | eKeyword | eName | eVariable | eFunction | eLambda | eType | eNumber
  | eString | eChar | eBoolean
  | eAssignmentOp | eArithmeticalOp | eBitOp | eLogicalOp | eComparisonOp
  | eIncDecOp | eExtendedOp
  | eBracket | eEllipsis | eOther | eNone
  deriving DecidableEq, Repr

/-! ## Standard-type classification (`token.cpp`, `stdTypes` /
`Token::isStandardType` / `Token::update_property_isStandardType`) -/

/-- The fixed `stdTypes` set from `token.cpp`. -/
def stdTypes : List String :=
  ["bool", "_Bool", "char", "double", "float", "int", "long", "short",
   "size_t", "void", "wchar_t", "signed", "unsigned"]

/-- `Token::isStandardType(const std::string&)`: membership in `stdTypes`. -/
def isStandardTypeStr (s : String) : Bool :=
  stdTypes.contains s

/-- `Token::update_property_isStandardType()`.  State acted on: the token
spelling `mStr` (read only), the token type `mTokType` and the
`fIsStandardType` flag (both possibly written).  Returns the new
`(mTokType, fIsStandardType)` pair. -/
def update_property_isStandardType (mStr : String) (mTokType : TokType)
    (flag : Bool) : TokType × Bool :=
  if mStr.length < 3 ∨ mStr.length > 7 then (mTokType, flag)
  else if isStandardTypeStr mStr then (TokType.eType, true)
  else (mTokType, flag)

/-! ## Token stream nodes with bracket links
(`Token::deleteNext`, `Token::deletePrevious`, `Token::takeData`,
`Token::deleteThis`).

The stream is modelled as a `List` of nodes in sequence order; the
doubly-linked `mNext`/`mPrevious` pointers of the source become list
positions.  A node carries the payload that these functions touch: its
spelling `mStr` and its bracket link `mLink` (represented by the partner
node id; `none` is the null pointer).  Node ids model pointer identity. -/

structure TNode where
  id : Nat
  str : String
  link : Option Nat
  deriving DecidableEq, Repr

/-- Clear the bracket link of the node with id `b` (the effect of
`n->mLink->link(nullptr)` expressed on the whole stream). -/
def clearLinkTo (b : Nat) (t : TNode) : TNode :=
  if t.id = b then { t with link := none } else t

/-- The partner-clearing step at the top of the `Token::deleteNext` /
`Token::deletePrevious` loop bodies: before node `n` is destroyed, if
`n->mLink && n->mLink->mLink == n` then `n->mLink->link(nullptr)`. -/
def clearPartnerOf (toks : List TNode) (n : TNode) : List TNode :=
  match n.link with
  | none => toks
  | some b =>
    match toks.find? (fun t => t.id = b) with
    | some bt =>
      if bt.link = some n.id then toks.map (clearLinkTo b)
      else toks
    | none => toks

/-- One iteration of the `Token::deleteNext`/`Token::deletePrevious` loop:
delete the node at position `j` of the stream, after clearing its bracket
partner's back link. -/
def deleteAt (toks : List TNode) (j : Nat) : List TNode :=
  match toks[j]? with
  | none => toks
  | some n => (clearPartnerOf toks n).eraseIdx j

/-- `Token::deleteNext(count)` called on the node at position `i`:
`while (mNext && count > 0)` delete the following node. -/
def deleteNextN (toks : List TNode) (i : Nat) : Nat → List TNode
  | 0 => toks
  | count + 1 =>
    if i + 1 < toks.length then deleteNextN (deleteAt toks (i + 1)) i count
    else toks

/-- `Token::deletePrevious(count)` called on the node at position `i`:
`while (mPrevious && count > 0)` delete the preceding node (the calling
node's position then shifts down by one). -/
def deletePrevN (toks : List TNode) (i : Nat) : Nat → List TNode
  | 0 => toks
  | count + 1 =>
    if 1 ≤ i ∧ i ≤ toks.length then
      deletePrevN (deleteAt toks (i - 1)) (i - 1) count
    else toks

/-- Stream well-formedness: node ids (pointer identities) are distinct. -/
def idsNodup (toks : List TNode) : Prop := (toks.map TNode.id).Nodup

/-- Bracket-link symmetry over a stream as a proposition: every link
resolves to a node of the stream whose link points back. -/
def LinkSymP (toks : List TNode) : Prop :=
  ∀ t ∈ toks, ∀ b, t.link = some b → ∃ u ∈ toks, u.id = b ∧ u.link = some t.id

/-- Bracket-link symmetry over a stream (spec: "for all nodes A, if A's
bracket link is B, then B's bracket link is A"), as a decidable check:
every link resolves to a node of the stream whose link points back. -/
def linkSymB (toks : List TNode) : Bool :=
  toks.all (fun t =>
    match t.link with
    | none => true
    | some b =>
      match toks.find? (fun u => u.id = b) with
      | some u => u.link = some t.id
      | none => false)

/-- `Token::takeData(fromToken)` on the payload modelled here: node `i`
takes over node `j`'s spelling and bracket link, and
`if (mLink) mLink->link(this)` re-points the inherited partner at node
`i`. -/
def takeDataInto (toks : List TNode) (i j : Nat) : List TNode :=
  match toks[i]?, toks[j]? with
  | some cur, some src =>
    let toks1 := toks.set i { cur with str := src.str, link := src.link }
    match src.link with
    | some b =>
      toks1.map (fun t => if t.id = b then { t with link := some cur.id } else t)
    | none => toks1
  | _, _ => toks

/-- Set the bracket link of the node at position `j` (the
`mNext->link(nullptr)` / `mPrevious->link(nullptr)` "mark as unlinked"
step of `Token::deleteThis`). -/
def setLinkAt (toks : List TNode) (j : Nat) (l : Option Nat) : List TNode :=
  match toks[j]? with
  | none => toks
  | some n => toks.set j { n with link := l }

/-- `Token::deleteThis()` on the node at position `i`: copy the next
node's data here and delete it; otherwise copy the previous node's data
here and delete it; otherwise (sole token of the stream) `str(";")`. -/
def deleteThis (toks : List TNode) (i : Nat) : List TNode :=
  if i + 1 < toks.length then
    deleteNextN (setLinkAt (takeDataInto toks i (i + 1)) (i + 1) none) i 1
  else if 0 < i then
    deletePrevN (setLinkAt (takeDataInto toks i (i - 1)) (i - 1) none) i 1
  else
    match toks[i]? with
    | none => toks
    | some n => toks.set i { n with str := ";" }

/-! ## Pattern matcher (`multiComparePercent`, `multiCompareImpl`,
`Token::simpleMatch`, `Token::Match`).

C strings become `List Char`; reading the terminating `'\0'` (or reading
past the end of the buffer, which the source does only on well-formed
patterns) becomes `List.getD` with the NUL character as default.  The
matcher walks the token stream through `tok->next()`; the stream is a
`List MTok` whose head is the current token and where the null token is
the empty list. -/

/-- The NUL character terminating a C string. -/
def nulc : Char := Char.ofNat 0

/-- Modelled from the spec: the per-token data the pattern matcher reads.
The `Token` accessors (`str`, `varId`, `tokType`) live in a header
outside this excerpt; the spec's data model (section 3) lists these
fields. -/
structure MTok where
  str : List Char
  varId : Nat
  tokType : TokType
  deriving DecidableEq, Repr

/-- Modelled from the spec: `Token::isName()`; the identifier-like kinds
of the spec's enum (a `%name%` wildcard matches names). -/
def MTok.isName (t : MTok) : Bool :=
  t.tokType = TokType.eName ∨ t.tokType = TokType.eType ∨
  t.tokType = TokType.eVariable ∨ t.tokType = TokType.eFunction ∨
  t.tokType = TokType.eKeyword ∨ t.tokType = TokType.eBoolean

/-- Modelled from the spec: `Token::isNumber()`. -/
def MTok.isNumber (t : MTok) : Bool := t.tokType = TokType.eNumber

/-- Modelled from the spec: `Token::isAssignmentOp()`. -/
def MTok.isAssignmentOp (t : MTok) : Bool := t.tokType = TokType.eAssignmentOp

/-- Modelled from the spec: `Token::isComparisonOp()`. -/
def MTok.isComparisonOp (t : MTok) : Bool := t.tokType = TokType.eComparisonOp

/-- Modelled from the spec: `Token::isBoolean()`. -/
def MTok.isBoolean (t : MTok) : Bool := t.tokType = TokType.eBoolean

/-- Modelled from the spec: `Token::isConstOp()` — the constant-valued
operator kinds matched by `%cop%`. -/
def MTok.isConstOp (t : MTok) : Bool :=
  t.tokType = TokType.eArithmeticalOp ∨ t.tokType = TokType.eBitOp ∨
  t.tokType = TokType.eComparisonOp ∨ t.tokType = TokType.eLogicalOp

/-- Modelled from the spec: `Token::isOp()`. -/
def MTok.isOp (t : MTok) : Bool :=
  t.isConstOp ∨ t.isAssignmentOp ∨ t.tokType = TokType.eIncDecOp

/-- The two `InternalError` throws reachable from `Token::Match`:
`%varid%` evaluated with a zero binding, and an unknown `%cmd%`. -/
inductive MatchErr where
  | varidZero
  | unknownCommand
  deriving DecidableEq, Repr

/-- Result of `multiComparePercent`: return `1` (match), return `-1`
(no match, no further alternative), or return `0xFFFF` with the haystack
advanced past a `'|'` (try the next alternative). -/
inductive MCPRes where
  | one
  | stop
  | cont (h : List Char)
  deriving DecidableEq, Repr

/-- The common tail of `multiComparePercent`:
`if (*haystack == '|') haystack += 1; else return -1; return 0xFFFF;`. -/
def mcpTail (h : List Char) : MCPRes :=
  if h.getD 0 nulc = '|' then MCPRes.cont (h.drop 1) else MCPRes.stop

/-- `multiComparePercent(tok, haystack, varid)` from `token.cpp`:
dispatch on the first characters after the `'%'` and consume exactly one
`%cmd%` wildcard.  `haystack` points at the `'%'`; the initial
`++haystack` of the source is the `.drop 1`. -/
def multiComparePercent (tok : MTok) (haystack : List Char) (varid : Nat) :
    Except MatchErr MCPRes :=
  let h := haystack.drop 1
  match h.getD 0 nulc with
  | 'v' =>
    if h.getD 3 nulc = '%' then
      let h := h.drop 4
      if tok.varId ≠ 0 then pure MCPRes.one else pure (mcpTail h)
    else
      if varid = 0 then throw MatchErr.varidZero
      else
        let h := h.drop 6
        if tok.varId = varid then pure MCPRes.one else pure (mcpTail h)
  | 't' =>
    let h := h.drop 5
    if tok.isName ∧ tok.varId = 0 then pure MCPRes.one else pure (mcpTail h)
  | 'a' =>
    if h.getD 3 nulc = '%' then pure MCPRes.one
    else
      let h := h.drop 7
      if tok.isAssignmentOp then pure MCPRes.one else pure (mcpTail h)
  | 'n' =>
    if h.getD 4 nulc = '%' then
      let h := h.drop 5
      if tok.isName then pure MCPRes.one else pure (mcpTail h)
    else
      let h := h.drop 4
      if tok.isNumber then pure MCPRes.one else pure (mcpTail h)
  | 'c' =>
    let h := h.drop 1
    if h.getD 0 nulc = 'h' then
      let h := h.drop 4
      if tok.tokType = TokType.eChar then pure MCPRes.one else pure (mcpTail h)
    else if h.getD 1 nulc = 'p' then
      let h := h.drop 3
      if tok.isConstOp then pure MCPRes.one else pure (mcpTail h)
    else
      let h := h.drop 4
      if tok.isComparisonOp then pure MCPRes.one else pure (mcpTail h)
  | 's' =>
    let h := h.drop 4
    if tok.tokType = TokType.eString then pure MCPRes.one else pure (mcpTail h)
  | 'b' =>
    let h := h.drop 5
    if tok.isBoolean then pure MCPRes.one else pure (mcpTail h)
  | 'o' =>
    let h := h.drop 1
    if h.getD 1 nulc = '%' then
      if h.getD 0 nulc = 'p' then
        let h := h.drop 2
        if tok.isOp then pure MCPRes.one else pure (mcpTail h)
      else
        let h := h.drop 2
        if tok.tokType = TokType.eBitOp ∧ tok.str = ['|'] then pure MCPRes.one
        else pure (mcpTail h)
    else
      let h := h.drop 4
      if tok.tokType = TokType.eLogicalOp ∧ tok.str = ['|', '|'] then pure MCPRes.one
      else pure (mcpTail h)
  | _ => throw MatchErr.unknownCommand

/-- The mismatch recovery of `multiCompareImpl`: advance the haystack to
just past the next `'|'`; `none` when a space or the end of the pattern
is reached first (return `-1`). -/
def mciScan : List Char → Option (List Char)
  | [] => none
  | c :: rest =>
    if c = ' ' then none
    else if c = '|' then some rest
    else mciScan rest

/-- The main loop of `multiCompareImpl`.  `np` is `needlePointer` (a
suffix of `needle`; `np.length = needle.length` is the pointer equality
`needlePointer == needle`).  The fuel only bounds the loop; every
iteration strictly shortens the haystack, so `haystack.length + 1` fuel
(0 is never reached) makes this the exact loop of the source. -/
def mciLoop (tok : MTok) (varid : Nat) (needle : List Char) :
    Nat → List Char → List Char → Except MatchErr Int
  | 0, _, _ => pure (-1)
  | fuel + 1, np, h =>
    if np.length = needle.length ∧ h.getD 0 nulc = '%' ∧ h.getD 1 nulc ≠ '|' ∧
        h.getD 1 nulc ≠ nulc ∧ h.getD 1 nulc ≠ ' ' then
      do
        match ← multiComparePercent tok h varid with
        | MCPRes.one => pure 1
        | MCPRes.stop => pure (-1)
        | MCPRes.cont h2 => mciLoop tok varid needle fuel np h2
    else if h.getD 0 nulc = '|' then
      if np.getD 0 nulc = nulc then pure 1
      else mciLoop tok varid needle fuel needle (h.drop 1)
    else if np.getD 0 nulc = h.getD 0 nulc then
      if np.getD 0 nulc = nulc then pure 1
      else mciLoop tok varid needle fuel (np.drop 1) (h.drop 1)
    else if h.getD 0 nulc = ' ' ∨ h = [] then
      if np.length = needle.length then pure 0
      else if np.getD 0 nulc = nulc then pure 1
      else pure (-1)
    else
      match mciScan (h.drop 1) with
      | none => pure (-1)
      | some h2 => mciLoop tok varid needle fuel needle h2

/-- `multiCompareImpl(tok, haystack, varid)` from `token.cpp`: match the
token's spelling against one `|`-separated alternative list.  Returns
`1` (match), `0` (empty alternative matched), `-1` (no match), or the
`InternalError` of `multiComparePercent`. -/
def multiCompareImpl (tok : MTok) (haystack : List Char) (varid : Nat) :
    Except MatchErr Int :=
  mciLoop tok varid tok.str (haystack.length + 1) tok.str haystack

/-- `Token::chrInFirstWord(str, c)` (Boolean view: was the character
found before a space or the end). -/
def chrInFirstWord (c : Char) : List Char → Bool
  | [] => false
  | ch :: rest =>
    if ch = ' ' then false
    else if ch = c then true
    else chrInFirstWord c rest

/-- `Token::firstWordEquals(str, word)`: the first space-separated word
of `str` equals `word`. -/
def firstWordEquals : List Char → List Char → Bool
  | [], [] => true
  | [], _ :: _ => false
  | c :: _, [] => c = ' '
  | c :: s, d :: w => if c = d then firstWordEquals s w else false

/-- The `[...]` character-class scan of `Token::Match`: walk the class
body counting `']'` occurrences until the token's character is found, a
space, or the end.  Returns `(chrFound, count, temp)` where `temp` is
the stop position. -/
def bracketScan (c : Char) : List Char → Nat → Bool × Nat × List Char
  | [], cnt => (false, cnt, [])
  | ch :: rest, cnt =>
    if ch = ' ' then (false, cnt, ch :: rest)
    else if ch = ']' then bracketScan c rest (cnt + 1)
    else if ch = c then (true, cnt, ch :: rest)
    else bracketScan c rest cnt

/-- The main loop of `Token::Match`.  Every iteration strictly shortens
the pattern, so `pattern.length + 1` fuel makes this the exact loop of
the source (fuel 0 is never reached). -/
def matchLoop (varid : Nat) : Nat → List MTok → List Char → Except MatchErr Bool
  | 0, _, _ => pure false
  | fuel + 1, toks, p0 =>
    let p := p0.dropWhile (· = ' ')
    if p = [] then pure true
    else
      match toks with
      | [] =>
        if p.getD 0 nulc = '!' ∧ p.getD 1 nulc = '!' ∧ p.getD 2 nulc ≠ nulc then
          matchLoop varid fuel [] (p.dropWhile (· ≠ ' '))
        else pure false
      | tok :: rest =>
        if p.getD 0 nulc = '[' ∧ chrInFirstWord ']' p then
          if tok.str.length ≠ 1 then pure false
          else
            let r := bracketScan (tok.str.getD 0 nulc) (p.drop 1) 0
            let chrFound := r.1 ∨ (r.2.1 > 1 ∧ tok.str.getD 0 nulc = ']')
            if ¬ chrFound then pure false
            else
              let pn := r.2.2.dropWhile (· ≠ ' ')
              if pn = [] then pure true else matchLoop varid fuel rest pn
        else if p.getD 0 nulc = '!' ∧ p.getD 1 nulc = '!' ∧ p.getD 2 nulc ≠ nulc then
          if firstWordEquals (p.drop 2) tok.str then pure false
          else
            let pn := (p.drop 2).dropWhile (· ≠ ' ')
            if pn = [] then pure true else matchLoop varid fuel rest pn
        else
          do
            let res ← multiCompareImpl tok p varid
            if res = 0 then matchLoop varid fuel (tok :: rest) (p.dropWhile (· ≠ ' '))
            else if res = -1 then pure false
            else
              let pn := p.dropWhile (· ≠ ' ')
              if pn = [] then pure true else matchLoop varid fuel rest pn

/-- `Token::Match(tok, pattern, varid)`: `tok` is the head of the list
(the empty list is the null token). -/
def MatchFn (toks : List MTok) (pattern : List Char) (varid : Nat) :
    Except MatchErr Bool :=
  matchLoop varid (pattern.length + 1) toks pattern

/-- Word splitter for `Token::simpleMatch`'s `current`/`next` walk: the
space-separated words compared against consecutive tokens.  A single
trailing space produces no further word, exactly as the source's
`while (*current)` loop stops there. -/
def splitWordsAux : List Char → List Char → List (List Char)
  | [], acc => [acc.reverse]
  | [' '], acc => [acc.reverse]
  | ' ' :: rest, acc => acc.reverse :: splitWordsAux rest []
  | c :: rest, acc => splitWordsAux rest (c :: acc)

/-- The words of a `simpleMatch` pattern. -/
def splitWords (p : List Char) : List (List Char) :=
  if p = [] then [] else splitWordsAux p []

/-- The comparison loop of `Token::simpleMatch`: each word must equal
the spelling of the corresponding token; a missing token fails. -/
def simpleMatchWords : List MTok → List (List Char) → Bool
  | _, [] => true
  | [], _ :: _ => false
  | t :: ts, w :: ws => if t.str = w then simpleMatchWords ts ws else false

/-- `Token::simpleMatch(tok, pattern)`: `if (!tok) return false;` then
compare word by word. -/
def simpleMatch (toks : List MTok) (pattern : List Char) : Bool :=
  match toks with
  | [] => false
  | _ :: _ => simpleMatchWords toks (splitWords pattern)

/-! ## Value facts (`ValueFlow::Value`, spec section 4.5) and the fact
store of `token.cpp` (`isAdjacent`, `removePointValue`,
`removeContradiction`, `removeAdjacentValues`, `mergeAdjacent`,
`removeOverlaps`, `removeContradictions`, `sameValueType`,
`Token::addValue`).

The `ValueFlow::Value` record itself is declared outside this excerpt;
it is modelled from the spec: a fact carries a kind, a confidence, a
bound, and a payload (an integer value, a float value, or a token
reference).  The algorithms acting on fact lists are translated from
`token.cpp` statement by statement; `std::list` iterators become list
positions, `erase` becomes `eraseIdx`, and in-place writes become
`set`. -/

/-- Modelled from the spec: the fact kinds of section 4.5 (int / float /
token-reference / moved / uninitialized / buffer-size / container-size /
iterator-bound / lifetime / symbolic). -/
inductive ValueType where
  | intValue | tokValue | floatValue | movedValue | uninitValue
  | containerSizeValue | lifetimeValue | bufferSizeValue
  | iteratorStartValue | iteratorEndValue | symbolicValue
  deriving DecidableEq, Repr

/-- Modelled from the spec: the confidence of a fact. -/
inductive ValueKind where
  | known | possible | impossible | inconclusive
  deriving DecidableEq, Repr

/-- Modelled from the spec: the bound of a fact (point value or
open-ended range endpoint). -/
inductive Bound where
  | point | lower | upper
  deriving DecidableEq, Repr

/-- Modelled from the spec: a token reference held by a token-reference,
lifetime or symbolic fact.  `ptr` models pointer identity, `exprId` the
referenced token's expression id, `strId` its spelling (as an
identifier, since only equality of spellings is ever used). -/
structure TokRef where
  ptr : Nat
  exprId : Nat
  strId : Nat
  deriving DecidableEq, Repr

/-- Modelled from the spec: one value fact.  The float payload is an
exact rational: the algorithms below only copy and compare float
payloads (never compute with them), and the comparisons used are exact.
Provenance metadata (condition node, path id, variable id) is not
modelled; facts differing only in provenance are identified. -/
structure Value where
  valueType : ValueType
  valueKind : ValueKind
  bound : Bound
  intvalue : Int
  floatValue : Rat
  tokvalue : Option TokRef
  deriving DecidableEq, Repr

instance : Inhabited Value :=
  ⟨⟨ValueType.intValue, ValueKind.possible, Bound.point, 0, 0, none⟩⟩

/-- Modelled from the spec: `Value::isKnown()`. -/
def Value.isKnown (v : Value) : Bool := v.valueKind = ValueKind.known

/-- Modelled from the spec: `Value::isImpossible()`. -/
def Value.isImpossible (v : Value) : Bool := v.valueKind = ValueKind.impossible

/-- Modelled from the spec: `Value::isInconclusive()`. -/
def Value.isInconclusive (v : Value) : Bool := v.valueKind = ValueKind.inconclusive

/-- Modelled from the spec: `Value::isNonValue()` — the fact kinds that
carry no numeric value (moved / uninitialized / lifetime). -/
def Value.isNonValue (v : Value) : Bool :=
  v.valueType = ValueType.movedValue ∨ v.valueType = ValueType.uninitValue ∨
  v.valueType = ValueType.lifetimeValue

/-- Modelled from the spec: `Value::isSymbolicValue()`. -/
def Value.isSymbolicValue (v : Value) : Bool :=
  v.valueType = ValueType.symbolicValue

/-- Modelled from the spec: `Value::isIntValue()`. -/
def Value.isIntValue (v : Value) : Bool := v.valueType = ValueType.intValue

/-- Modelled from the spec: `Value::isTokValue()`. -/
def Value.isTokValue (v : Value) : Bool := v.valueType = ValueType.tokValue

/-- Modelled from the spec: `Value::isLifetimeValue()`. -/
def Value.isLifetimeValue (v : Value) : Bool :=
  v.valueType = ValueType.lifetimeValue

/-- Modelled from the spec: `Value::sameToken(tok1, tok2)` — same token
(pointer identity), or both have the same nonzero expression id. -/
def sameTokenRef (t1 t2 : Option TokRef) : Bool :=
  if t1 = t2 then true
  else
    match t1, t2 with
    | some a, some b => a.exprId ≠ 0 ∧ b.exprId ≠ 0 ∧ a.exprId = b.exprId
    | _, _ => false

/-- Modelled from the spec: `Value::equalValue(rhs)` — same kind and
same payload for that kind. -/
def Value.equalValue (x y : Value) : Bool :=
  if x.valueType ≠ y.valueType then false
  else
    match x.valueType with
    | ValueType.intValue | ValueType.bufferSizeValue
    | ValueType.containerSizeValue | ValueType.iteratorStartValue
    | ValueType.iteratorEndValue | ValueType.movedValue => x.intvalue = y.intvalue
    | ValueType.tokValue | ValueType.lifetimeValue => x.tokvalue = y.tokvalue
    | ValueType.floatValue => x.floatValue = y.floatValue
    | ValueType.uninitValue => true
    | ValueType.symbolicValue =>
      sameTokenRef x.tokvalue y.tokvalue ∧ x.intvalue = y.intvalue

/-- Modelled from the spec: the numeric value of a fact when compared
against a float fact. -/
def Value.floatOf (v : Value) : Rat :=
  if v.valueType = ValueType.floatValue then v.floatValue else (v.intvalue : Rat)

/-- Modelled from the spec: `Value::compareValue(rhs, less)` — compare
as floats when either side is a float fact, as integers otherwise. -/
def compareValueLt (x y : Value) : Bool :=
  if x.valueType = ValueType.floatValue ∨ y.valueType = ValueType.floatValue then
    x.floatOf < y.floatOf
  else x.intvalue < y.intvalue

/-- Modelled from the spec: `Value::decreaseRange()` — a range fact
degrades one endpoint (the spec's "ranges degrade one endpoint at a
time rather than disappearing outright"). -/
def Value.decreaseRange (v : Value) : Value :=
  if v.bound = Bound.lower then { v with intvalue := v.intvalue + 1 }
  else if v.bound = Bound.upper then { v with intvalue := v.intvalue - 1 }
  else v

/-- `std::numeric_limits<MathLib::bigint>::max()` (a 64-bit integer). -/
def bigintMax : Int := 2 ^ 63 - 1

/-- `std::numeric_limits<MathLib::bigint>::min()`. -/
def bigintMin : Int := -(2 ^ 63)

/-- `isAdjacent(x, y)` from `token.cpp`: equal non-point bounds are
always adjacent; floats are otherwise never adjacent; integer values
are adjacent when they differ by exactly one (with explicit 64-bit
overflow guards). -/
def isAdjacent (x y : Value) : Bool :=
  if x.bound ≠ Bound.point ∧ x.bound = y.bound then true
  else if x.valueType = ValueType.floatValue then false
  else
    (y.intvalue ≠ bigintMax ∧ x.intvalue = y.intvalue + 1) ∨
    (y.intvalue ≠ bigintMin ∧ x.intvalue = y.intvalue - 1)

/-- `removePointValue(values, x)` from `token.cpp`: erase a point fact
(returning `true`), degrade a range fact in place (returning `false`). -/
def removePointValue (values : List Value) (i : Nat) : List Value × Bool :=
  match values[i]? with
  | none => (values, false)
  | some v =>
    if v.bound = Bound.point then (values.eraseIdx i, true)
    else (values.set i v.decreaseRange, false)

/-- The equal-bound branch of `removeContradiction`:
`if (removex) values.erase(itx); if (removey) values.erase(ity);`
(erasing position `ix` first shifts `iy` down by one). -/
def rcEraseBoth (values : List Value) (ix iy : Nat) (removex removey : Bool) :
    List Value :=
  let v1 := if removex then values.eraseIdx ix else values
  if removey then v1.eraseIdx (if removex then iy - 1 else iy) else v1

/-- The different-bound branch of `removeContradiction`:
`removePointValue` on `itx` then on `ity` (whose position shifts when
`itx` was erased); returns the list and the `bail` flag. -/
def rcPointStep (values : List Value) (ix iy : Nat) (removex removey : Bool) :
    List Value × Bool :=
  let pr1 := if removex then removePointValue values ix else (values, false)
  let iy2 := if pr1.2 then iy - 1 else iy
  let pr2 := if removey then removePointValue pr1.1 iy2 else (pr1.1, false)
  (pr2.1, pr1.2 ∨ pr2.2)

/-- The inner (`ity`) loop of `removeContradiction`.  State: the list,
the positions `ix < iy` of `itx`/`ity`, and the accumulated `result`
flag.  Returns the list, the `result` flag, and whether the source
returned `true` early.  Every continuing iteration keeps the list
length and increments `iy`, so `values.length + 1` fuel makes this the
exact loop of the source. -/
def rcInner : Nat → List Value → Nat → Nat → Bool → List Value × Bool × Bool
  | 0, values, _, _, res => (values, res, false)
  | fuel + 1, values, ix, iy, res =>
    match values[iy]? with
    | none => (values, res, false)
    | some y =>
      if y.isNonValue then rcInner fuel values ix (iy + 1) res
      else
        match values[ix]? with
        | none => (values, res, false)
        | some x =>
          if x = y then rcInner fuel values ix (iy + 1) res
          else if x.valueType ≠ y.valueType then rcInner fuel values ix (iy + 1) res
          else if x.isImpossible = y.isImpossible then rcInner fuel values ix (iy + 1) res
          else if x.isSymbolicValue ∧ ¬ sameTokenRef x.tokvalue y.tokvalue then
            rcInner fuel values ix (iy + 1) res
          else if ¬ x.equalValue y then
            let iMax := if compareValueLt x y then iy else ix
            let iMin := if compareValueLt y x then iy else ix
            let vMax := values.getD iMax default
            let vMin := values.getD iMin default
            if vMax.isImpossible ∧ vMax.bound = Bound.upper then
              (values.eraseIdx iMin, res, true)
            else if vMin.isImpossible ∧ vMin.bound = Bound.lower then
              (values.eraseIdx iMax, res, true)
            else rcInner fuel values ix (iy + 1) res
          else
            let removex := ¬ x.isImpossible ∨ y.isKnown
            let removey := ¬ y.isImpossible ∨ x.isKnown
            if x.bound = y.bound then
              (rcEraseBoth values ix iy removex removey, res, true)
            else
              let res2 := removex ∨ removey
              let pr := rcPointStep values ix iy removex removey
              if pr.2 then (pr.1, res2, true)
              else rcInner fuel pr.1 ix (iy + 1) res2

/-- The outer (`itx`) loop of `removeContradiction`. -/
def rcOuter : Nat → List Value → Nat → Bool → List Value × Bool
  | 0, values, _, res => (values, res)
  | fuel + 1, values, ix, res =>
    match values[ix]? with
    | none => (values, res)
    | some x =>
      if x.isNonValue then rcOuter fuel values (ix + 1) res
      else
        let r := rcInner (values.length + 1) values ix (ix + 1) res
        if r.2.2 then (r.1, true) else rcOuter fuel r.1 (ix + 1) r.2.1

/-- `removeContradiction(values)` from `token.cpp`: one pairwise
contradiction-removal pass; returns the new list and whether anything
was (or would be) changed. -/
def removeContradiction (values : List Value) : List Value × Bool :=
  rcOuter (values.length + 1) values 0 false

/-- The removal predicate of the `remove_if` inside `removeOverlaps`
(the `&x == &y` identity guard is handled by the caller, which never
applies the predicate to `x` itself). -/
def overlapPred (x y : Value) : Bool :=
  ¬ y.isNonValue ∧ x.valueType = y.valueType ∧ x.valueKind = y.valueKind ∧
  x.equalValue y ∧ x.bound = y.bound

/-- The duplicate-removal loop of `removeOverlaps`: for each surviving
fact `x` in order, erase every other fact that is an exact duplicate of
`x` (same kind, confidence, value and bound).  `done` holds the already
visited survivors, `pending` the rest of the list.  Every step consumes
at least one pending fact, so `pending.length` fuel makes this the
exact loop of the source (fuel 0 is only reached with `pending = []`). -/
def removeOverlapsAux : Nat → List Value → List Value → List Value
  | 0, done, pending => done ++ pending
  | _ + 1, done, [] => done
  | fuel + 1, done, x :: rest =>
    if x.isNonValue then removeOverlapsAux fuel (done ++ [x]) rest
    else
      removeOverlapsAux fuel (done.filter (fun y => ¬ overlapPred x y) ++ [x])
        (rest.filter (fun y => ¬ overlapPred x y))

/-- The guarded `push_back` at the bottom of the `mergeAdjacent`
candidate scan: skip `y` unless it lies strictly on the open side of
the range fact `x`. -/
def adjPush (x : Value) (j : Nat) (y : Value) (acc : List Nat) : List Nat :=
  if x.bound = Bound.lower ∧ ¬ compareValueLt y x then acc
  else if x.bound = Bound.upper ∧ ¬ compareValueLt x y then acc
  else j :: acc

/-- The candidate (`y`) scan of `mergeAdjacent` for a fixed range fact
`x` at position `i`: collect the positions of merge candidates, with
the source's clear-and-break when another range fact of a different
bound is already adjacent to `x`. -/
def adjGo (x : Value) (i : Nat) : List (Nat × Value) → List Nat → List Nat
  | [], acc => acc.reverse
  | (j, y) :: rest, acc =>
    if j = i ∨ y.isNonValue ∨ x.valueType ≠ y.valueType ∨
        x.valueKind ≠ y.valueKind ∨
        (x.isSymbolicValue ∧ ¬ sameTokenRef x.tokvalue y.tokvalue) then
      adjGo x i rest acc
    else if x.bound ≠ y.bound then
      if y.bound ≠ Bound.point ∧ isAdjacent x y then []
      else if x.valueType = ValueType.floatValue then adjGo x i rest acc
      else if y.bound ≠ Bound.point then adjGo x i rest acc
      else adjGo x i rest (adjPush x j y acc)
    else adjGo x i rest (adjPush x j y acc)

/-- Stable insertion (ascending by `compareValueLt`) used to model the
`std::sort` of the candidate positions. -/
def sortInsert (values : List Value) (j : Nat) : List Nat → List Nat
  | [] => [j]
  | k :: rest =>
    if compareValueLt (values.getD j default) (values.getD k default) then
      j :: k :: rest
    else k :: sortInsert values j rest

/-- Sort candidate positions ascending by the value they point at. -/
def sortByValue (values : List Value) : List Nat → List Nat
  | [] => []
  | j :: rest => sortInsert values j (sortByValue values rest)

/-- The `std::adjacent_find` of `removeAdjacentValues`: index of the
first consecutive candidate pair that is *not* adjacent; the last
position when every pair is adjacent (`if (it == last) it--`). -/
def adjFindGo (values : List Value) : List Nat → Nat → Nat
  | a :: b :: rest, k =>
    if ¬ isAdjacent (values.getD a default) (values.getD b default) then k
    else adjFindGo values (b :: rest) (k + 1)
  | _, k => k

/-- Erase the facts at the given original positions. -/
def eraseIdxs (values : List Value) (idxs : List Nat) : List Value :=
  (values.enum.filter (fun p => ¬ idxs.contains p.1)).map Prod.snd

/-- `removeAdjacentValues(values, x, start, last)` from `token.cpp`:
`i` is the position of `x`, `seq` the candidate positions in iteration
order (descending values for a lower bound, ascending for an upper
bound).  Returns the new list and the position of the iterator the
source returns (`std::next(x)` untouched, or `values.erase(x)`). -/
def removeAdjacentValues (values : List Value) (i : Nat) (seq : List Nat) :
    List Value × Nat :=
  match seq with
  | [] => (values, i + 1)
  | j0 :: _ =>
    if ¬ isAdjacent (values.getD i default) (values.getD j0 default) then
      (values, i + 1)
    else
      let k := adjFindGo values seq 0
      let target := seq.getD k 0
      let tv := values.getD target default
      let values1 := values.set target { tv with bound := (values.getD i default).bound }
      let toErase := seq.take k
      let values2 := eraseIdxs values1 toErase
      let i2 := i - (toErase.filter (fun j => decide (j < i))).length
      (values2.eraseIdx i2, i2)

/-- The main loop of `mergeAdjacent` over positions `i`.  Every step
either advances the position or shortens the list, so
`values.length + 1` fuel makes this the exact loop of the source. -/
def mergeAdjacentAux : Nat → List Value → Nat → List Value
  | 0, values, _ => values
  | fuel + 1, values, i =>
    match values[i]? with
    | none => values
    | some x =>
      if x.isNonValue then mergeAdjacentAux fuel values (i + 1)
      else if x.bound = Bound.point then mergeAdjacentAux fuel values (i + 1)
      else
        let adjValues := adjGo x i values.enum []
        if adjValues = [] then mergeAdjacentAux fuel values (i + 1)
        else
          let sorted := sortByValue values adjValues
          if x.bound = Bound.lower then
            let r := removeAdjacentValues values i sorted.reverse
            mergeAdjacentAux fuel r.1 r.2
          else
            let r := removeAdjacentValues values i sorted
            mergeAdjacentAux fuel r.1 r.2

/-- `mergeAdjacent(values)` from `token.cpp`. -/
def mergeAdjacent (values : List Value) : List Value :=
  mergeAdjacentAux (values.length + 1) values 0

/-- `removeOverlaps(values)` from `token.cpp`: duplicate removal, then
`mergeAdjacent`. -/
def removeOverlaps (values : List Value) : List Value :=
  mergeAdjacent (removeOverlapsAux values.length [] values)

/-- The bounded `for (int i = 0; i < 4; i++)` loop of
`removeContradictions`. -/
def rcLoop : Nat → List Value → List Value
  | 0, vs => vs
  | n + 1, vs =>
    let r := removeContradiction vs
    if ¬ r.2 then r.1 else rcLoop n (removeOverlaps r.1)

/-- `removeContradictions(values)` from `token.cpp`. -/
def removeContradictions (values : List Value) : List Value :=
  rcLoop 4 (removeOverlaps values)

/-- The expression id behind a fact's token reference (`tokvalue->exprId()`;
0 models the null reference). -/
def Value.tokExprId (v : Value) : Nat :=
  match v.tokvalue with
  | some t => t.exprId
  | none => 0

/-- The spelling id behind a fact's token reference (`tokvalue->str()`). -/
def Value.tokStrId (v : Value) : Nat :=
  match v.tokvalue with
  | some t => t.strId
  | none => 0

/-- `sameValueType(x, y)` from `token.cpp`: same kind, and symbolic
facts additionally share their token (or the first has no expression
id). -/
def sameValueType (x y : Value) : Bool :=
  if x.valueType ≠ y.valueType then false
  else if x.isSymbolicValue then
    x.tokExprId = 0 ∨ x.tokExprId = y.tokExprId
  else true

/-- Outcome of the "if value already exists" scan of `Token::addValue`. -/
inductive DupRes where
  | rejected
  | replaced (vs : List Value)
  | notFound
  deriving DecidableEq, Repr

/-- The duplicate scan of `Token::addValue`: find an equal-value fact of
the same kind and impossibility; replace it when upgrading an
inconclusive fact, otherwise reject the insertion. -/
def dupScan (value : Value) : List Value → List Value → DupRes
  | _, [] => DupRes.notFound
  | done, v :: rest =>
    if v.valueType ≠ value.valueType then dupScan value (done ++ [v]) rest
    else if v.isImpossible ≠ value.isImpossible then dupScan value (done ++ [v]) rest
    else if ¬ v.equalValue value then dupScan value (done ++ [v]) rest
    else if (value.isTokValue ∨ value.isLifetimeValue) ∧ v.tokvalue ≠ value.tokvalue ∧
        v.tokStrId ≠ value.tokStrId then
      dupScan value (done ++ [v]) rest
    else if v.isInconclusive ∧ ¬ value.isInconclusive ∧ ¬ value.isImpossible then
      DupRes.replaced (done ++ value :: rest)
    else DupRes.rejected

/-- The allocated-list path of `Token::addValue`: the fact-count cap,
the duplicate scan, and the insertion (known integer facts go to the
front, others are appended). -/
def addValueInsert (vs : List Value) (value : Value) : Bool × Option (List Value) :=
  if vs.length ≥ 10 then (false, some vs)
  else
    match dupScan value [] vs with
    | DupRes.rejected => (false, some vs)
    | DupRes.replaced vs2 => (true, some (removeContradictions vs2))
    | DupRes.notFound =>
      let vs2 :=
        if value.isKnown ∧ value.isIntValue then value :: vs else vs ++ [value]
      (true, some (removeContradictions vs2))

/-- `Token::addValue(value)` from `token.cpp`.  The fact list is
`Option (List Value)` because the source distinguishes a null
`mImpl->mValues` from an allocated empty list.  Returns whether the
fact was added, and the new list.  The provenance stamping
(`v.varId = mImpl->mVarId`) acts on metadata not modelled in `Value`
and is omitted. -/
def addValue (mValues : Option (List Value)) (value : Value) :
    Bool × Option (List Value) :=
  let mValues :=
    if value.isKnown then
      mValues.map (fun vs => vs.filter (fun x => ¬ sameValueType x value))
    else mValues
  let knownConflict : Bool :=
    match mValues with
    | some vs => vs.any (fun x => x.isKnown ∧ sameValueType x value ∧ ¬ x.equalValue value)
    | none => false
  if ¬ value.isKnown ∧ knownConflict then
    (false, mValues)
  else
    match mValues with
    | some vs => addValueInsert vs value
    | none => (true, some (removeContradictions [value]))

/-! ## AST attachment (`Token::astParent(Token*)`, `Token::astOperand1`,
`Token::astOperand2`, `Token::astTop`).

Nodes are identified by `Nat` ids (pointer identity); the AST overlay is
the triple of partial maps `par`/`op1`/`op2` (`mAstParent`,
`mAstOperand1`, `mAstOperand2`).  The `while` loops walking parent links
take a fuel bound; the theorems assume the walked chain ends within the
fuel (`parIter ... = none`), which is exactly the source's precondition
that parent links are acyclic. -/

/-- The AST link state: parent and operand maps over node ids. -/
structure AstState where
  par : Nat → Option Nat
  op1 : Nat → Option Nat
  op2 : Nat → Option Nat

/-- Point update of a link map. -/
def updMap (f : Nat → Option Nat) (k : Nat) (v : Option Nat) : Nat → Option Nat :=
  fun n => if n = k then v else f n

/-- Iterate the parent map `fuel` times from an optional node. -/
def parIter (par : Nat → Option Nat) : Nat → Option Nat → Option Nat
  | 0, o => o
  | _ + 1, none => none
  | fuel + 1, some t => parIter par fuel (par t)

/-- The nodes visited by the `while (tok2)` walk of `Token::astParent`:
the start node and its ancestors, within the fuel. -/
def chainList (par : Nat → Option Nat) : Nat → Option Nat → List Nat
  | _, none => []
  | 0, some _ => []
  | fuel + 1, some t => t :: chainList par fuel (par t)

/-- `Token::astTop()`: follow parent links to the topmost node. -/
def astTop (par : Nat → Option Nat) : Nat → Nat → Nat
  | 0, t => t
  | fuel + 1, t =>
    match par t with
    | none => t
    | some p => astTop par fuel p

/-- `Token::astParent(tok)` (the setter): walk `tok`'s parent chain and
fail on a cyclic dependency; otherwise clear the current parent's
operand slots pointing at `self` and set `self`'s parent to `tok`. -/
def astParentSet (st : AstState) (self : Nat) (tok : Option Nat) (fuel : Nat) :
    Except Unit AstState :=
  if (chainList st.par fuel tok).contains self then Except.error ()
  else
    let st1 :=
      match st.par self with
      | some parent =>
        let sa :=
          if st.op1 parent = some self then { st with op1 := updMap st.op1 parent none }
          else st
        if sa.op2 parent = some self then { sa with op2 := updMap sa.op2 parent none }
        else sa
      | none => st
    Except.ok { st1 with par := updMap st1.par self tok }

/-- `Token::astOperand1(tok)`: release the previous operand, graft the
topmost ancestor of `tok` under `self`, and store it in the first
operand slot. -/
def astOperand1Set (st : AstState) (self : Nat) (tok : Option Nat) (fuel : Nat) :
    Except Unit AstState :=
  let st1 :=
    match st.op1 self with
    | some o =>
      match astParentSet st o none fuel with
      | Except.ok s => s
      | Except.error _ => st
    | none => st
  match tok with
  | none => Except.ok { st1 with op1 := updMap st1.op1 self none }
  | some c =>
    let top := astTop st1.par fuel c
    match astParentSet st1 top (some self) fuel with
    | Except.error e => Except.error e
    | Except.ok st2 => Except.ok { st2 with op1 := updMap st2.op1 self (some top) }

/-- `Token::astOperand2(tok)`: as `astOperand1`, for the second slot. -/
def astOperand2Set (st : AstState) (self : Nat) (tok : Option Nat) (fuel : Nat) :
    Except Unit AstState :=
  let st1 :=
    match st.op2 self with
    | some o =>
      match astParentSet st o none fuel with
      | Except.ok s => s
      | Except.error _ => st
    | none => st
  match tok with
  | none => Except.ok { st1 with op2 := updMap st1.op2 self none }
  | some c =>
    let top := astTop st1.par fuel c
    match astParentSet st1 top (some self) fuel with
    | Except.error e => Except.error e
    | Except.ok st2 => Except.ok { st2 with op2 := updMap st2.op2 self (some top) }

/-! ## Theorems -/

theorem length_clearPartnerOf (toks : List TNode) (n : TNode) :
    (clearPartnerOf toks n).length = toks.length := by
  unfold clearPartnerOf
  split
  · rfl
  · split
    · split <;> simp
    · rfl

theorem length_takeDataInto (toks : List TNode) (i j : Nat) :
    (takeDataInto toks i j).length = toks.length := by
  unfold takeDataInto
  split
  · split <;> simp
  · rfl

theorem length_setLinkAt (toks : List TNode) (j : Nat) (l : Option Nat) :
    (setLinkAt toks j l).length = toks.length := by
  unfold setLinkAt
  split <;> simp

theorem length_deleteAt_of_lt (toks : List TNode) (j : Nat)
    (h : j < toks.length) : (deleteAt toks j).length = toks.length - 1 := by
  unfold deleteAt
  have hj : toks[j]? = some toks[j] := List.getElem?_eq_getElem h
  rw [hj]
  rw [List.length_eraseIdx]
  all_goals simp [length_clearPartnerOf, h]

/-- C4: `update_property_isStandardType` upgrades to kind `eType` (and
sets the standard-type flag) exactly when the spelling has length 3..7
and belongs to the fixed `stdTypes` set; any other spelling leaves the
kind and flag unchanged. -/
theorem stdType_upgrade_iff (s : String) (t : TokType) (f : Bool) :
    (3 ≤ s.length ∧ s.length ≤ 7 ∧ isStandardTypeStr s →
      update_property_isStandardType s t f = (TokType.eType, true)) ∧
    (¬ (3 ≤ s.length ∧ s.length ≤ 7 ∧ isStandardTypeStr s = true) →
      update_property_isStandardType s t f = (t, f)) := by
  constructor
  · rintro ⟨h1, h2, h3⟩
    unfold update_property_isStandardType
    rw [if_neg (by omega), if_pos h3]
  · intro h
    unfold update_property_isStandardType
    by_cases h1 : s.length < 3 ∨ s.length > 7
    · rw [if_pos h1]
    · rw [if_neg h1]
      have h3 : ¬ isStandardTypeStr s = true := by
        intro hmem
        exact h ⟨by omega, by omega, hmem⟩
      rw [if_neg h3]

/-- Witness for C4: the upgrade fires on `"int"` and is skipped on
`"unsigned"` (8 characters, despite being listed in the set) and on
`"foo"`. -/
theorem stdType_upgrade_iff_witness :
    update_property_isStandardType "int" TokType.eName false = (TokType.eType, true) ∧
    update_property_isStandardType "unsigned" TokType.eName false = (TokType.eName, false) ∧
    update_property_isStandardType "foo" TokType.eName false = (TokType.eName, false) :=
  ⟨(stdType_upgrade_iff "int" TokType.eName false).1 (by decide),
   (stdType_upgrade_iff "unsigned" TokType.eName false).2 (by decide),
   (stdType_upgrade_iff "foo" TokType.eName false).2 (by decide)⟩

/-- C10: `Token::Match` with an empty pattern returns true for every
input (null token included), while `Token::simpleMatch` returns false
for a null token regardless of the pattern. -/
theorem match_empty_vs_simpleMatch_null :
    (∀ (toks : List MTok) (varid : Nat), MatchFn toks "".toList varid = Except.ok true) ∧
    (∀ pattern : List Char, simpleMatch [] pattern = false) := by
  constructor
  · intro toks varid
    rfl
  · intro pattern
    rfl

/-- C2 counterexample: `deleteThis` on the sole node of a stream does
not clear the node's text — it sets it to `";"`, which is not the empty
string. -/
theorem deleteThis_sole_counterexample :
    (deleteThis [⟨0, "x", none⟩] 0).map TNode.str = [";"] ∧ (";" : String) ≠ "" := by
  exact ⟨rfl, by decide⟩

/-- C2 amended: on a single-node stream `deleteThis` keeps the node and
replaces its text with `";"` (rather than clearing it); and for any
valid position, `deleteThis` never leaves the stream empty. -/
theorem deleteThis_sole_semicolon_nonempty :
    (∀ n : TNode, deleteThis [n] 0 = [{ n with str := ";" }]) ∧
    (∀ (toks : List TNode) (i : Nat), i < toks.length → deleteThis toks i ≠ []) := by
  constructor
  · intro n
    rfl
  · intro toks i hi
    have hne : ∀ m : List TNode, 0 < m.length → m ≠ [] := by
      intro m hm
      exact List.ne_nil_of_length_pos hm
    unfold deleteThis
    by_cases hA : i + 1 < toks.length
    · rw [if_pos hA]
      apply hne
      have h2 : (setLinkAt (takeDataInto toks i (i + 1)) (i + 1) none).length = toks.length := by
        rw [length_setLinkAt, length_takeDataInto]
      unfold deleteNextN
      rw [if_pos (by omega)]
      unfold deleteNextN
      rw [length_deleteAt_of_lt _ _ (by omega)]
      omega
    · rw [if_neg hA]
      by_cases hB : 0 < i
      · rw [if_pos hB]
        apply hne
        have h2 : (setLinkAt (takeDataInto toks i (i - 1)) (i - 1) none).length = toks.length := by
          rw [length_setLinkAt, length_takeDataInto]
        unfold deletePrevN
        rw [if_pos (by omega)]
        unfold deletePrevN
        rw [length_deleteAt_of_lt _ _ (by omega)]
        omega
      · rw [if_neg hB]
        have hj : toks[i]? = some toks[i] := List.getElem?_eq_getElem hi
        rw [hj]
        apply hne
        simp only [List.length_set]
        omega

/-- Witness for C2 (amended): the sole-node clause on a concrete node
and the never-empty clause on a concrete two-node stream. -/
theorem deleteThis_sole_semicolon_nonempty_witness :
    deleteThis [⟨0, "x", none⟩] 0 = [⟨0, ";", none⟩] ∧
    deleteThis [⟨0, "a", none⟩, ⟨1, "b", none⟩] 1 ≠ [] :=
  ⟨deleteThis_sole_semicolon_nonempty.1 ⟨0, "x", none⟩,
   deleteThis_sole_semicolon_nonempty.2 [⟨0, "a", none⟩, ⟨1, "b", none⟩] 1 (by decide)⟩

/-- C1 counterexample: with a known int fact of value 5 stored, adding a
known int fact of value 7 for the same kind is *accepted* (the old
known fact is purged and replaced), not rejected with the list
unchanged as the claim states. -/
theorem addValue_known_over_known_counterexample :
    addValue (some [⟨ValueType.intValue, ValueKind.known, Bound.point, 5, 0, none⟩])
        ⟨ValueType.intValue, ValueKind.known, Bound.point, 7, 0, none⟩ =
      (true, some [⟨ValueType.intValue, ValueKind.known, Bound.point, 7, 0, none⟩]) := by
  decide

/-- C1 amended: an incoming *known* fact always purges existing known
facts of the same kind first (so known 5 followed by known 7 succeeds
and replaces); the conflict rejection applies exactly to incoming
*non-known* facts: adding a non-known fact is rejected, with the list
unchanged, whenever a known fact of the same kind with a different
value already exists. -/
theorem addValue_known_conflict_amended :
    (∀ (vs : List Value) (v : Value), v.isKnown = false →
      (∃ x ∈ vs, x.isKnown = true ∧ sameValueType x v = true ∧ x.equalValue v = false) →
      addValue (some vs) v = (false, some vs)) ∧
    addValue (some [⟨ValueType.intValue, ValueKind.known, Bound.point, 5, 0, none⟩])
        ⟨ValueType.intValue, ValueKind.known, Bound.point, 7, 0, none⟩ =
      (true, some [⟨ValueType.intValue, ValueKind.known, Bound.point, 7, 0, none⟩]) := by
  constructor
  · intro vs v hk hconf
    simp [addValue, hk, hconf]
  · decide

/-- Witness for C1: the rejection branch fires on a concrete non-known
fact conflicting with a stored known fact. -/
theorem addValue_known_conflict_amended_witness :
    addValue (some [⟨ValueType.intValue, ValueKind.known, Bound.point, 5, 0, none⟩])
        ⟨ValueType.intValue, ValueKind.possible, Bound.point, 3, 0, none⟩ =
      (false, some [⟨ValueType.intValue, ValueKind.known, Bound.point, 5, 0, none⟩]) :=
  addValue_known_conflict_amended.1
    [⟨ValueType.intValue, ValueKind.known, Bound.point, 5, 0, none⟩]
    ⟨ValueType.intValue, ValueKind.possible, Bound.point, 3, 0, none⟩
    (by decide) (by decide)

theorem mem_of_getElemOpt {α : Type} {l : List α} {i : Nat} {a : α}
    (h : l[i]? = some a) : a ∈ l := by
  obtain ⟨hlt, rfl⟩ := List.getElem?_eq_some.mp h
  exact List.getElem_mem hlt

/-- C3 counterexample: two floating-point facts that are both lower
bounds *are* merged — `mergeAdjacent` collapses them to the smaller
lower bound, so the pair is not left unmerged as the claim states. -/
theorem mergeAdjacent_float_counterexample :
    mergeAdjacent
        [⟨ValueType.floatValue, ValueKind.possible, Bound.lower, 0, 2, none⟩,
         ⟨ValueType.floatValue, ValueKind.possible, Bound.lower, 0, 1, none⟩] =
      [⟨ValueType.floatValue, ValueKind.possible, Bound.lower, 0, 1, none⟩] ∧
    ([⟨ValueType.floatValue, ValueKind.possible, Bound.lower, 0, 1, none⟩] : List Value) ≠
      [⟨ValueType.floatValue, ValueKind.possible, Bound.lower, 0, 2, none⟩,
       ⟨ValueType.floatValue, ValueKind.possible, Bound.lower, 0, 1, none⟩] := by
  decide

theorem mergeAdjacentAux_point_fix (vs : List Value)
    (h : ∀ v ∈ vs, v.valueType = ValueType.floatValue ∧ v.bound = Bound.point) :
    ∀ (fuel i : Nat), mergeAdjacentAux fuel vs i = vs := by
  intro fuel
  induction fuel with
  | zero => intro i; rfl
  | succ n ih =>
    intro i
    unfold mergeAdjacentAux
    cases hx : vs[i]? with
    | none => rfl
    | some x =>
      obtain ⟨hvt, hb⟩ := h x (mem_of_getElemOpt hx)
      simp [Value.isNonValue, hvt, hb, ih]

/-- C3 amended: float facts are never merged through the
consecutive-point path — a float point fact is adjacent to nothing, and
`mergeAdjacent` leaves any list of float point facts untouched — but
two float facts with the same non-point bound are merged (the redundant
bound is collapsed). -/
theorem mergeAdjacent_float_amended :
    (∀ x y : Value, x.valueType = ValueType.floatValue → x.bound = Bound.point →
      isAdjacent x y = false) ∧
    (∀ vs : List Value,
      (∀ v ∈ vs, v.valueType = ValueType.floatValue ∧ v.bound = Bound.point) →
      mergeAdjacent vs = vs) ∧
    mergeAdjacent
        [⟨ValueType.floatValue, ValueKind.possible, Bound.lower, 0, 2, none⟩,
         ⟨ValueType.floatValue, ValueKind.possible, Bound.lower, 0, 1, none⟩] =
      [⟨ValueType.floatValue, ValueKind.possible, Bound.lower, 0, 1, none⟩] := by
  refine ⟨?_, ?_, by decide⟩
  · intro x y hvt hb
    simp [isAdjacent, hvt, hb]
  · intro vs h
    exact mergeAdjacentAux_point_fix vs h (vs.length + 1) 0

/-- Witness for C3 (amended): the point-fact clauses at concrete float
point facts. -/
theorem mergeAdjacent_float_amended_witness :
    isAdjacent ⟨ValueType.floatValue, ValueKind.possible, Bound.point, 0, 1, none⟩
        ⟨ValueType.floatValue, ValueKind.possible, Bound.point, 0, 2, none⟩ = false ∧
    mergeAdjacent
        [⟨ValueType.floatValue, ValueKind.possible, Bound.point, 0, 1, none⟩,
         ⟨ValueType.floatValue, ValueKind.possible, Bound.point, 0, 2, none⟩] =
      [⟨ValueType.floatValue, ValueKind.possible, Bound.point, 0, 1, none⟩,
       ⟨ValueType.floatValue, ValueKind.possible, Bound.point, 0, 2, none⟩] :=
  ⟨mergeAdjacent_float_amended.1 _ _ rfl rfl,
   mergeAdjacent_float_amended.2.1 _ (by decide)⟩

theorem length_removePointValue_le (vs : List Value) (i : Nat) :
    (removePointValue vs i).1.length ≤ vs.length := by
  unfold removePointValue
  split
  · exact Nat.le_refl _
  · split
    · simpa using List.length_eraseIdx_le vs i
    · simp

theorem length_ite_rpv_le (c : Prop) [Decidable c] (vs : List Value) (i : Nat) :
    ((if c then removePointValue vs i else (vs, false)).1).length ≤ vs.length := by
  split
  · exact length_removePointValue_le vs i
  · exact Nat.le_refl _

theorem length_ite_erase_le (c : Prop) [Decidable c] (vs : List Value) (i : Nat) :
    (if c then vs.eraseIdx i else vs).length ≤ vs.length := by
  split
  · exact List.length_eraseIdx_le ..
  · exact Nat.le_refl _

theorem length_rcEraseBoth_le (values : List Value) (ix iy : Nat)
    (removex removey : Bool) :
    (rcEraseBoth values ix iy removex removey).length ≤ values.length := by
  unfold rcEraseBoth
  exact Nat.le_trans (length_ite_erase_le _ _ _) (length_ite_erase_le _ _ _)

theorem length_rcPointStep_le (values : List Value) (ix iy : Nat)
    (removex removey : Bool) :
    (rcPointStep values ix iy removex removey).1.length ≤ values.length := by
  unfold rcPointStep
  exact Nat.le_trans (length_ite_rpv_le _ _ _) (length_ite_rpv_le _ _ _)

set_option maxHeartbeats 1600000 in
theorem length_rcInner_le :
    ∀ (fuel : Nat) (vs : List Value) (ix iy : Nat) (res : Bool),
      (rcInner fuel vs ix iy res).1.length ≤ vs.length := by
  intro fuel
  induction fuel with
  | zero => intro vs ix iy res; exact Nat.le_refl _
  | succ n ih =>
    intro vs ix iy res
    unfold rcInner
    dsimp only
    repeat' split
    all_goals
      first
      | exact Nat.le_refl _
      | exact ih ..
      | exact List.length_eraseIdx_le ..
      | exact length_rcEraseBoth_le ..
      | exact length_rcPointStep_le ..
      | exact Nat.le_trans (ih ..) (length_rcPointStep_le ..)

theorem length_rcOuter_le :
    ∀ (fuel : Nat) (vs : List Value) (ix : Nat) (res : Bool),
      (rcOuter fuel vs ix res).1.length ≤ vs.length := by
  intro fuel
  induction fuel with
  | zero => intro vs ix res; exact Nat.le_refl _
  | succ n ih =>
    intro vs ix res
    unfold rcOuter
    dsimp only
    repeat' split
    all_goals
      first
      | exact Nat.le_refl _
      | exact ih ..
      | exact length_rcInner_le ..
      | exact Nat.le_trans (ih ..) (length_rcInner_le ..)

theorem length_removeContradiction_le (vs : List Value) :
    (removeContradiction vs).1.length ≤ vs.length :=
  length_rcOuter_le ..

theorem length_removeOverlapsAux_le :
    ∀ (fuel : Nat) (done pending : List Value),
      (removeOverlapsAux fuel done pending).length ≤ done.length + pending.length := by
  intro fuel
  induction fuel with
  | zero => intro done pending; simp [removeOverlapsAux]
  | succ n ih =>
    intro done pending
    cases pending with
    | nil => simp [removeOverlapsAux]
    | cons x rest =>
      unfold removeOverlapsAux
      split
      · have h := ih (done ++ [x]) rest
        simp at h ⊢
        omega
      · have h := ih (done.filter (fun y => ¬ overlapPred x y) ++ [x])
          (rest.filter (fun y => ¬ overlapPred x y))
        have h1 := List.length_filter_le (fun y => decide (¬ overlapPred x y = true)) done
        have h2 := List.length_filter_le (fun y => decide (¬ overlapPred x y = true)) rest
        simp at h h1 h2 ⊢
        omega

theorem length_eraseIdxs_le (values : List Value) (idxs : List Nat) :
    (eraseIdxs values idxs).length ≤ values.length := by
  unfold eraseIdxs
  rw [List.length_map]
  calc (values.enum.filter (fun p => ¬ idxs.contains p.1)).length
      ≤ values.enum.length := List.length_filter_le ..
    _ = values.length := List.enum_length

theorem length_removeAdjacentValues_le (values : List Value) (i : Nat)
    (seq : List Nat) :
    (removeAdjacentValues values i seq).1.length ≤ values.length := by
  unfold removeAdjacentValues
  split
  · exact Nat.le_refl _
  · split
    · exact Nat.le_refl _
    · refine Nat.le_trans (List.length_eraseIdx_le ..) ?_
      refine Nat.le_trans (length_eraseIdxs_le ..) ?_
      simp

theorem length_mergeAdjacentAux_le :
    ∀ (fuel : Nat) (vs : List Value) (i : Nat),
      (mergeAdjacentAux fuel vs i).length ≤ vs.length := by
  intro fuel
  induction fuel with
  | zero => intro vs i; exact Nat.le_refl _
  | succ n ih =>
    intro vs i
    unfold mergeAdjacentAux
    dsimp only
    repeat' split
    all_goals
      first
      | exact Nat.le_refl _
      | exact ih ..
      | exact Nat.le_trans (ih ..) (length_removeAdjacentValues_le ..)

theorem length_mergeAdjacent_le (vs : List Value) :
    (mergeAdjacent vs).length ≤ vs.length :=
  length_mergeAdjacentAux_le ..

theorem length_removeOverlaps_le (vs : List Value) :
    (removeOverlaps vs).length ≤ vs.length := by
  unfold removeOverlaps
  refine Nat.le_trans (length_mergeAdjacent_le ..) ?_
  simpa using length_removeOverlapsAux_le vs.length [] vs

theorem length_rcLoop_le :
    ∀ (n : Nat) (vs : List Value), (rcLoop n vs).length ≤ vs.length := by
  intro n
  induction n with
  | zero => intro vs; exact Nat.le_refl _
  | succ m ih =>
    intro vs
    unfold rcLoop
    dsimp only
    split
    · exact length_removeContradiction_le ..
    · refine Nat.le_trans (ih ..) ?_
      refine Nat.le_trans (length_removeOverlaps_le ..) ?_
      exact length_removeContradiction_le ..

theorem length_removeContradictions_le (vs : List Value) :
    (removeContradictions vs).length ≤ vs.length := by
  unfold removeContradictions
  exact Nat.le_trans (length_rcLoop_le ..) (length_removeOverlaps_le ..)

theorem dupScan_replaced_length (v : Value) :
    ∀ (rest done out : List Value), dupScan v done rest = DupRes.replaced out →
      out.length = done.length + rest.length := by
  intro rest
  induction rest with
  | nil => intro done out h; simp [dupScan] at h
  | cons w ws ih =>
    intro done out h
    unfold dupScan at h
    repeat' split at h
    all_goals
      first
      | (have h9 := ih (done ++ [w]) out h; simp at h9 ⊢; omega)
      | (injection h with h2; subst h2; simp)
      | (cases h)

theorem addValueInsert_true_bound (vs : List Value) (v : Value)
    (r : Option (List Value)) (h : addValueInsert vs v = (true, r)) :
    ∃ l, r = some l ∧ l.length ≤ 10 := by
  unfold addValueInsert at h
  split at h
  · simp at h
  · rename_i hcap
    split at h
    · simp at h
    · rename_i vs2 hdup
      injection h with h1 h2
      refine ⟨removeContradictions vs2, h2.symm, ?_⟩
      refine Nat.le_trans (length_removeContradictions_le ..) ?_
      have := dupScan_replaced_length v vs [] vs2 hdup
      simp at this
      omega
    · injection h with h1 h2
      refine ⟨_, h2.symm, ?_⟩
      refine Nat.le_trans (length_removeContradictions_le ..) ?_
      rename_i hcap2
      split
      · simp; omega
      · simp; omega

/-- C9 counterexample: with ten facts already stored, `addValue` of a
known fact is *not* rejected — the known-fact purge (which runs before
the cap check) empties the list and the insertion succeeds, changing
the list. -/
theorem addValue_cap_counterexample :
    addValue
        (some ((List.range 10).map (fun n =>
          (⟨ValueType.intValue, ValueKind.possible, Bound.point, (n : Int), 0, none⟩ : Value))))
        ⟨ValueType.intValue, ValueKind.known, Bound.point, 5, 0, none⟩ =
      (true, some [⟨ValueType.intValue, ValueKind.known, Bound.point, 5, 0, none⟩]) ∧
    ((List.range 10).map (fun n =>
      (⟨ValueType.intValue, ValueKind.possible, Bound.point, (n : Int), 0, none⟩ : Value))).length = 10 := by
  constructor
  · decide
  · decide

/-- C9 amended: the cap applies to the list left after the known-fact
purge — if that list still holds 10 or more facts the insertion returns
false with no further change; and every successful `addValue` leaves at
most 10 facts. -/
theorem addValue_cap_amended :
    (∀ (vs : List Value) (v : Value),
      (if v.isKnown then vs.filter (fun x => ¬ sameValueType x v) else vs).length ≥ 10 →
      addValue (some vs) v =
        (false, some (if v.isKnown then vs.filter (fun x => ¬ sameValueType x v) else vs))) ∧
    (∀ (mv : Option (List Value)) (v : Value) (r : Option (List Value)),
      addValue mv v = (true, r) → ∃ l, r = some l ∧ l.length ≤ 10) := by
  constructor
  · intro vs v h10
    have hreject : ∀ ws : List Value, ws.length ≥ 10 →
        addValueInsert ws v = (false, some ws) := by
      intro ws hw
      unfold addValueInsert
      rw [if_pos hw]
    by_cases hk : v.isKnown = true
    · rw [if_pos hk] at h10 ⊢
      unfold addValue
      dsimp only
      simp only [hk, eq_self_iff_true, if_true, Option.map_some', Bool.true_eq_false,
        false_and, if_false]
      exact hreject _ h10
    · have hk' : v.isKnown = false := by
        cases hv : v.isKnown
        · rfl
        · exact absurd hv hk
      rw [if_neg (by simp [hk'])] at h10 ⊢
      unfold addValue
      dsimp only
      simp only [hk', Bool.false_eq_true, if_false, eq_self_iff_true, true_and]
      split
      · rfl
      · exact hreject _ h10
  · intro mv v r hadd
    unfold addValue at hadd
    dsimp only at hadd
    split at hadd <;> split at hadd
    · simp at hadd
    · split at hadd
      · exact addValueInsert_true_bound _ _ _ hadd
      · injection hadd with h1 h2
        refine ⟨_, h2.symm, ?_⟩
        refine Nat.le_trans (length_removeContradictions_le ..) ?_
        simp
    · simp at hadd
    · split at hadd
      · exact addValueInsert_true_bound _ _ _ hadd
      · injection hadd with h1 h2
        refine ⟨_, h2.symm, ?_⟩
        refine Nat.le_trans (length_removeContradictions_le ..) ?_
        simp

/-- Witness for C9 (amended): the cap rejection on a concrete
10-element list, and the bound on a concrete successful insertion. -/
theorem addValue_cap_amended_witness :
    addValue
        (some ((List.range 10).map (fun n =>
          (⟨ValueType.intValue, ValueKind.possible, Bound.point, (n : Int), 0, none⟩ : Value))))
        ⟨ValueType.tokValue, ValueKind.possible, Bound.point, 0, 0, none⟩ =
      (false, some ((List.range 10).map (fun n =>
        (⟨ValueType.intValue, ValueKind.possible, Bound.point, (n : Int), 0, none⟩ : Value)))) ∧
    ∃ l, (some [(⟨ValueType.intValue, ValueKind.known, Bound.point, 5, 0, none⟩ : Value)] :
        Option (List Value)) = some l ∧ l.length ≤ 10 := by
  constructor
  · have h := addValue_cap_amended.1
      ((List.range 10).map (fun n =>
        (⟨ValueType.intValue, ValueKind.possible, Bound.point, (n : Int), 0, none⟩ : Value)))
      ⟨ValueType.tokValue, ValueKind.possible, Bound.point, 0, 0, none⟩ (by decide)
    simpa using h
  · exact addValue_cap_amended.2
      (some [⟨ValueType.intValue, ValueKind.known, Bound.point, 5, 0, none⟩])
      ⟨ValueType.intValue, ValueKind.known, Bound.point, 5, 0, none⟩
      (some [⟨ValueType.intValue, ValueKind.known, Bound.point, 5, 0, none⟩]) (by decide)

theorem mci_varid_zero (tok : MTok) :
    multiCompareImpl tok ['%','v','a','r','i','d','%'] 0 = Except.error MatchErr.varidZero := by
  unfold multiCompareImpl
  rw [mciLoop]
  rw [if_pos ⟨rfl, by decide, by decide, by decide, by decide⟩]
  rw [multiComparePercent]
  simp [nulc]
  rfl

theorem mci_varid_nz (tok : MTok) (varid : Nat) (hv : ¬ varid = 0) :
    multiCompareImpl tok ['%','v','a','r','i','d','%'] varid =
      Except.ok (if tok.varId = varid then 1 else -1) := by
  unfold multiCompareImpl
  rw [mciLoop]
  rw [if_pos ⟨rfl, by decide, by decide, by decide, by decide⟩]
  rw [multiComparePercent]
  simp [nulc, hv, mcpTail]
  by_cases h : tok.varId = varid <;> simp [h] <;> rfl

/-- C5: evaluating the `%varid%` wildcard with a caller-supplied binding
of 0 raises the internal-error exception for every token (never an
ordinary match failure) — both at the `Token::Match` level and at the
`multiComparePercent` level for any pattern whose wildcard is `%varid%`
— while a nonzero binding matches exactly the tokens whose variable id
equals the binding. -/
theorem match_varid_binding :
    (∀ (tok : MTok) (rest : List MTok),
      MatchFn (tok :: rest) "%varid%".toList 0 = Except.error MatchErr.varidZero) ∧
    (∀ (tok : MTok) (rest : List MTok) (varid : Nat), ¬ varid = 0 →
      MatchFn (tok :: rest) "%varid%".toList varid = Except.ok (decide (tok.varId = varid))) ∧
    (∀ (tok : MTok) (h : List Char),
      (h.drop 1).getD 0 nulc = 'v' → ¬ (h.drop 1).getD 3 nulc = '%' →
      multiComparePercent tok h 0 = Except.error MatchErr.varidZero) := by
  refine ⟨?_, ?_, ?_⟩
  · intro tok rest
    show MatchFn (tok :: rest) ['%','v','a','r','i','d','%'] 0 = Except.error MatchErr.varidZero
    unfold MatchFn
    rw [matchLoop]
    rw [show (['%','v','a','r','i','d','%'] : List Char).dropWhile (· = ' ') =
        ['%','v','a','r','i','d','%'] from by decide]
    dsimp only
    rw [if_neg (by decide), if_neg (by decide), if_neg (by decide)]
    rw [mci_varid_zero tok]
    rfl
  · intro tok rest varid hv
    show MatchFn (tok :: rest) ['%','v','a','r','i','d','%'] varid =
      Except.ok (decide (tok.varId = varid))
    unfold MatchFn
    rw [matchLoop]
    rw [show (['%','v','a','r','i','d','%'] : List Char).dropWhile (· = ' ') =
        ['%','v','a','r','i','d','%'] from by decide]
    try dsimp only
    rw [if_neg (by decide), if_neg (by decide), if_neg (by decide)]
    rw [mci_varid_nz tok varid hv]
    by_cases h : tok.varId = varid
    · rw [if_pos h]
      simp [h]
      rfl
    · rw [if_neg h]
      simp [h]
      rfl
  · intro tok h hv h3
    unfold multiComparePercent
    dsimp only
    rw [hv]
    have h3x : ¬ (h[4]?.getD nulc = '%') := by simpa using h3
    simp [h3x]
    rfl

/-- Witness for C5: the usage error and both match outcomes on a
concrete token with variable id 5. -/
theorem match_varid_binding_witness :
    MatchFn [⟨['x'], 5, TokType.eVariable⟩] "%varid%".toList 0 =
      Except.error MatchErr.varidZero ∧
    MatchFn [⟨['x'], 5, TokType.eVariable⟩] "%varid%".toList 5 = Except.ok true ∧
    MatchFn [⟨['x'], 5, TokType.eVariable⟩] "%varid%".toList 7 = Except.ok false ∧
    multiComparePercent ⟨['x'], 5, TokType.eVariable⟩ "%varid%".toList 0 =
      Except.error MatchErr.varidZero := by
  refine ⟨match_varid_binding.1 _ [], ?_, ?_, ?_⟩
  · have h := match_varid_binding.2.1 ⟨['x'], 5, TokType.eVariable⟩ [] 5 (by decide)
    simpa using h
  · have h := match_varid_binding.2.1 ⟨['x'], 5, TokType.eVariable⟩ [] 7 (by decide)
    simpa using h
  · exact match_varid_binding.2.2 ⟨['x'], 5, TokType.eVariable⟩ "%varid%".toList
      (by decide) (by decide)

/-- C6: at the end of the stream (null token) a `!!x` negation
specifier succeeds and matching continues — in particular
`Match(nullptr, "!!a")` and `Match(nullptr, "!!a !!b")` are true —
whereas any other specifier at the head of the remaining pattern makes
the whole match fail. -/
theorem match_negation_past_end :
    MatchFn [] "!!a".toList 0 = Except.ok true ∧
    MatchFn [] "!!a !!b".toList 0 = Except.ok true ∧
    (∀ w : List Char, w ≠ [] → w.head? ≠ some ' ' →
      ¬ (w.getD 0 nulc = '!' ∧ w.getD 1 nulc = '!' ∧ ¬ w.getD 2 nulc = nulc) →
      MatchFn [] w 0 = Except.ok false) := by
  refine ⟨rfl, rfl, ?_⟩
  intro w hne hhead hneg
  have hdrop : w.dropWhile (· = ' ') = w := by
    cases w with
    | nil => rfl
    | cons c cs =>
      have hc : ¬ c = ' ' := by
        intro h
        exact hhead (by simp [h])
      simp [List.dropWhile_cons, hc]
  unfold MatchFn
  rw [matchLoop]
  try dsimp only
  rw [hdrop]
  rw [if_neg hne]
  rw [if_neg hneg]
  rfl

/-- Witness for C6: a non-negation one-word pattern fails against the
null token. -/
theorem match_negation_past_end_witness :
    MatchFn [] ['a'] 0 = Except.ok false :=
  match_negation_past_end.2.2 ['a'] (by decide) (by decide) (by decide)

theorem mem_eraseIdx_of_mem_ne {α : Type} :
    ∀ (l : List α) (j : Nat) (a x : α), l[j]? = some a → x ∈ l → x ≠ a →
      x ∈ l.eraseIdx j := by
  intro l
  induction l with
  | nil => intro j a x hj; simp at hj
  | cons h tl ih =>
    intro j a x hj hx hne
    cases j with
    | zero =>
      simp at hj
      subst hj
      rw [List.eraseIdx_cons_zero]
      rcases List.mem_cons.mp hx with h1 | h1
      · exact absurd h1 hne
      · exact h1
    | succ m =>
      simp at hj
      rw [List.eraseIdx_cons_succ]
      rcases List.mem_cons.mp hx with h1 | h1
      · exact List.mem_cons.mpr (Or.inl h1)
      · exact List.mem_cons.mpr (Or.inr (ih m a x hj h1 hne))

theorem idsNodup_sublist {l1 l2 : List TNode} (h : List.Sublist l1 l2)
    (hn : idsNodup l2) : idsNodup l1 :=
  hn.sublist (h.map TNode.id)

theorem id_inj {toks : List TNode} (hn : idsNodup toks) {u v : TNode}
    (hu : u ∈ toks) (hv : v ∈ toks) (h : u.id = v.id) : u = v :=
  List.inj_on_of_nodup_map hn hu hv h

theorem find?_id_eq {toks : List TNode} (hn : idsNodup toks) {u : TNode}
    (hu : u ∈ toks) {b : Nat} (hb : u.id = b) :
    toks.find? (fun t => t.id = b) = some u := by
  induction toks with
  | nil => simp at hu
  | cons h tl ih =>
    have hn' := List.nodup_cons.mp hn
    by_cases hh : h.id = b
    · rcases List.mem_cons.mp hu with rfl | hmem
      · simp [List.find?_cons, hh]
      · exfalso
        apply hn'.1
        rw [hh, ← hb]
        exact List.mem_map.mpr ⟨u, hmem, rfl⟩
    · rcases List.mem_cons.mp hu with rfl | hmem
      · exact absurd hb hh
      · rw [List.find?_cons]
        have : (decide (h.id = b)) = false := by simp [hh]
        rw [this]
        exact ih hn'.2 hmem

theorem linkSymB_iff (toks : List TNode) (hn : idsNodup toks) :
    linkSymB toks = true ↔ LinkSymP toks := by
  constructor
  · intro hB t ht b hb
    have hall := List.all_eq_true.mp hB t ht
    simp only [hb] at hall
    cases hfind : toks.find? (fun u => u.id = b) with
    | none => rw [hfind] at hall; simp at hall
    | some u =>
      rw [hfind] at hall
      simp at hall
      refine ⟨u, List.mem_of_find?_eq_some hfind, ?_, hall⟩
      have := List.find?_some hfind
      simpa using this
  · intro hP
    unfold linkSymB
    rw [List.all_eq_true]
    intro t ht
    cases hb : t.link with
    | none => simp [hb]
    | some b =>
      obtain ⟨u, hu, huid, hul⟩ := hP t ht b hb
      have hfind := find?_id_eq hn hu huid
      simp [hb, hfind, hul]

theorem clearLinkTo_id (b : Nat) (t : TNode) : (clearLinkTo b t).id = t.id := by
  unfold clearLinkTo
  split <;> rfl

theorem map_clearLinkTo_ids (toks : List TNode) (b : Nat) :
    (toks.map (clearLinkTo b)).map TNode.id = toks.map TNode.id := by
  induction toks with
  | nil => rfl
  | cons h tl ih => simp [clearLinkTo_id, ih]

theorem nodup_eraseIdx_id_ne (m : TNode) :
    ∀ (M : List TNode) (j : Nat), idsNodup M → M[j]? = some m →
      ∀ t ∈ M.eraseIdx j, t.id ≠ m.id := by
  intro M
  induction M with
  | nil => intro j hn hj; simp at hj
  | cons h tl ih =>
    intro j hn hj
    have hn' := List.nodup_cons.mp hn
    cases j with
    | zero =>
      simp at hj
      subst hj
      rw [List.eraseIdx_cons_zero]
      intro t ht heq
      apply hn'.1
      rw [← heq]
      exact List.mem_map.mpr ⟨t, ht, rfl⟩
    | succ k =>
      simp at hj
      rw [List.eraseIdx_cons_succ]
      intro t ht heq
      rcases List.mem_cons.mp ht with rfl | hmem
      · apply hn'.1
        rw [heq]
        exact List.mem_map.mpr ⟨m, mem_of_getElemOpt hj, rfl⟩
      · exact ih k hn'.2 hj t hmem heq

theorem deleteAt_spec (toks : List TNode) (j : Nat) (n : TNode)
    (hn : idsNodup toks) (hs : LinkSymP toks) (hj : toks[j]? = some n) :
    (∀ t ∈ deleteAt toks j, ¬ t.link = some n.id) ∧
    LinkSymP (deleteAt toks j) ∧ idsNodup (deleteAt toks j) := by
  have hnmem : n ∈ toks := mem_of_getElemOpt hj
  have hda : deleteAt toks j = (clearPartnerOf toks n).eraseIdx j := by
    unfold deleteAt
    rw [hj]
  rw [hda]
  cases hl : n.link with
  | none =>
    have hclear : clearPartnerOf toks n = toks := by
      unfold clearPartnerOf
      rw [hl]
    rw [hclear]
    have hsub := List.eraseIdx_sublist toks j
    refine ⟨?_, ?_, idsNodup_sublist hsub hn⟩
    · intro t ht hlink
      obtain ⟨u, hu, huid, hul⟩ := hs t (hsub.subset ht) n.id hlink
      have := id_inj hn hu hnmem huid
      subst this
      rw [hl] at hul
      cases hul
    · intro t ht b2 hlink
      obtain ⟨u, hu, huid, hul⟩ := hs t (hsub.subset ht) b2 hlink
      have hune : u ≠ n := by
        intro h
        subst h
        rw [hl] at hul
        cases hul
      exact ⟨u, mem_eraseIdx_of_mem_ne toks j n u hj hu hune, huid, hul⟩
  | some b =>
    obtain ⟨u0, hu0, hu0id, hu0link⟩ := hs n hnmem b hl
    have hfind : toks.find? (fun t => t.id = b) = some u0 := find?_id_eq hn hu0 hu0id
    have hclear : clearPartnerOf toks n = toks.map (clearLinkTo b) := by
      unfold clearPartnerOf
      rw [hl]
      show (match toks.find? (fun t => t.id = b) with
            | some bt =>
              if bt.link = some n.id then toks.map (clearLinkTo b) else toks
            | none => toks) = toks.map (clearLinkTo b)
      rw [hfind]
      show (if u0.link = some n.id then toks.map (clearLinkTo b) else toks) =
        toks.map (clearLinkTo b)
      rw [if_pos hu0link]
    rw [hclear]
    have hMn : idsNodup (toks.map (clearLinkTo b)) := by
      unfold idsNodup
      rw [map_clearLinkTo_ids]
      exact hn
    have hMj : (toks.map (clearLinkTo b))[j]? = some (clearLinkTo b n) := by
      rw [List.getElem?_map, hj]
      rfl
    have hsub := List.eraseIdx_sublist (toks.map (clearLinkTo b)) j
    have hA : ∀ t ∈ (toks.map (clearLinkTo b)).eraseIdx j, ¬ t.link = some n.id := by
      intro t' ht' hlink'
      obtain ⟨t, ht, hft⟩ := List.mem_map.mp (hsub.subset ht')
      subst hft
      by_cases hid : t.id = b
      · rw [show clearLinkTo b t = { t with link := none } from by
          unfold clearLinkTo; rw [if_pos hid]] at hlink'
        cases hlink'
      · rw [show clearLinkTo b t = t from by
          unfold clearLinkTo; rw [if_neg hid]] at hlink'
        obtain ⟨u, hu, huid, hul⟩ := hs t ht n.id hlink'
        have := id_inj hn hu hnmem huid
        subst this
        rw [hl] at hul
        injection hul with hul2
        exact hid hul2.symm
    refine ⟨hA, ?_, idsNodup_sublist hsub hMn⟩
    intro t' ht' b2 hlink'
    obtain ⟨t, ht, hft⟩ := List.mem_map.mp (hsub.subset ht')
    by_cases hid : t.id = b
    · rw [← hft, show clearLinkTo b t = { t with link := none } from by
        unfold clearLinkTo; rw [if_pos hid]] at hlink'
      cases hlink'
    · have hteq : clearLinkTo b t = t := by
        unfold clearLinkTo
        rw [if_neg hid]
      rw [← hft, hteq] at hlink'
      obtain ⟨u, hu, huid, hul⟩ := hs t ht b2 hlink'
      have hub : ¬ u.id = b := by
        intro hub
        have : u = u0 := id_inj hn hu hu0 (by rw [hub, hu0id])
        subst this
        rw [hu0link] at hul
        injection hul with h2
        have htn : t = n := id_inj hn ht hnmem h2.symm
        subst htn
        have := nodup_eraseIdx_id_ne (clearLinkTo b t) _ j hMn hMj _ ht'
        rw [← hft, hteq] at this
        exact this rfl
      have hun : ¬ u.id = n.id := by
        intro hun
        apply hA _ ht'
        rw [← hft, hteq, hlink', ← huid, hun]
      have hfu : clearLinkTo b u = u := by
        unfold clearLinkTo
        rw [if_neg hub]
      have huM : u ∈ toks.map (clearLinkTo b) := List.mem_map.mpr ⟨u, hu, hfu⟩
      have hufn : u ≠ clearLinkTo b n := by
        intro h
        apply hun
        rw [h, clearLinkTo_id]
      refine ⟨u, mem_eraseIdx_of_mem_ne _ j _ u hMj huM hufn, huid, ?_⟩
      rw [← hft, hteq]
      exact hul

theorem deleteNextN_spec (count : Nat) :
    ∀ (toks : List TNode) (i : Nat), idsNodup toks → LinkSymP toks →
      idsNodup (deleteNextN toks i count) ∧ LinkSymP (deleteNextN toks i count) := by
  induction count with
  | zero => intro toks i hn hs; exact ⟨hn, hs⟩
  | succ m ih =>
    intro toks i hn hs
    unfold deleteNextN
    split
    · rename_i hlt
      have hj : toks[i + 1]? = some toks[i + 1] := List.getElem?_eq_getElem hlt
      obtain ⟨_, h2, h3⟩ := deleteAt_spec toks (i + 1) _ hn hs hj
      exact ih _ i h3 h2
    · exact ⟨hn, hs⟩

theorem deletePrevN_spec (count : Nat) :
    ∀ (toks : List TNode) (i : Nat), idsNodup toks → LinkSymP toks →
      idsNodup (deletePrevN toks i count) ∧ LinkSymP (deletePrevN toks i count) := by
  induction count with
  | zero => intro toks i hn hs; exact ⟨hn, hs⟩
  | succ m ih =>
    intro toks i hn hs
    unfold deletePrevN
    split
    · rename_i hcond
      by_cases hlt : i - 1 < toks.length
      · have hj : toks[i - 1]? = some toks[i - 1] := List.getElem?_eq_getElem hlt
        obtain ⟨_, h2, h3⟩ := deleteAt_spec toks (i - 1) _ hn hs hj
        exact ih _ (i - 1) h3 h2
      · have hj : toks[i - 1]? = none := by
          rw [List.getElem?_eq_none]
          omega
        have hda : deleteAt toks (i - 1) = toks := by
          unfold deleteAt
          rw [hj]
        rw [hda]
        exact ih _ (i - 1) hn hs
    · exact ⟨hn, hs⟩

/-- C8: deletion preserves bracket-link safety.  When mutually linked
nodes A and B exist and A is deleted, B's link is cleared first: no
surviving node's bracket link refers to the deleted node, and the
symmetric-link invariant (checked by `linkSymB`) is preserved by
`deleteNext`/`deletePrevious` for any position and count. -/
theorem bracket_delete_safe :
    ∀ toks : List TNode, idsNodup toks → linkSymB toks = true →
      (∀ (j : Nat) (n : TNode), toks[j]? = some n →
        ∀ t ∈ deleteAt toks j, ¬ t.link = some n.id) ∧
      (∀ i count : Nat, linkSymB (deleteNextN toks i count) = true) ∧
      (∀ i count : Nat, linkSymB (deletePrevN toks i count) = true) := by
  intro toks hn hB
  have hs := (linkSymB_iff toks hn).mp hB
  refine ⟨?_, ?_, ?_⟩
  · intro j n hj
    exact (deleteAt_spec toks j n hn hs hj).1
  · intro i count
    obtain ⟨h1, h2⟩ := deleteNextN_spec count toks i hn hs
    exact (linkSymB_iff _ h1).mpr h2
  · intro i count
    obtain ⟨h1, h2⟩ := deletePrevN_spec count toks i hn hs
    exact (linkSymB_iff _ h1).mpr h2

/-- Witness for C8: a concrete stream of a mutually linked bracket pair
and a bystander node. -/
theorem bracket_delete_safe_witness :
    (∀ t ∈ deleteAt [⟨0, "(", some 1⟩, ⟨1, ")", some 0⟩, ⟨2, "x", none⟩] 0,
      ¬ t.link = some 0) ∧
    linkSymB (deleteNextN [⟨0, "(", some 1⟩, ⟨1, ")", some 0⟩, ⟨2, "x", none⟩] 0 1) = true := by
  have h := bracket_delete_safe [⟨0, "(", some 1⟩, ⟨1, ")", some 0⟩, ⟨2, "x", none⟩]
    (by unfold idsNodup; decide) (by decide)
  exact ⟨h.1 0 ⟨0, "(", some 1⟩ rfl, h.2.1 0 1⟩

theorem parIter_pos (par : Nat → Option Nat) (fuel : Nat) (c : Nat)
    (h : parIter par fuel (some c) = none) : 0 < fuel := by
  cases fuel with
  | zero => simp [parIter] at h
  | succ f => omega

theorem chainList_none (par : Nat → Option Nat) (fuel : Nat) :
    chainList par fuel none = [] := by
  cases fuel <;> rfl

theorem astTop_par_none (par : Nat → Option Nat) :
    ∀ (fuel c : Nat), parIter par fuel (some c) = none →
      par (astTop par fuel c) = none := by
  intro fuel
  induction fuel with
  | zero => intro c h; simp [parIter] at h
  | succ f ih =>
    intro c h
    have hstep : parIter par f (par c) = none := h
    unfold astTop
    cases hp : par c with
    | none => simp [hp]
    | some q =>
      rw [hp] at hstep
      show par (astTop par f q) = none
      exact ih q hstep

theorem astParentSet_error_iff (st : AstState) (self : Nat) (tok : Option Nat)
    (fuel : Nat) :
    (∃ e, astParentSet st self tok fuel = Except.error e) ↔
      self ∈ chainList st.par fuel tok := by
  unfold astParentSet
  by_cases h : (chainList st.par fuel tok).contains self
  · rw [if_pos h]
    constructor
    · intro _
      simpa using h
    · intro _
      exact ⟨(), rfl⟩
  · rw [if_neg h]
    constructor
    · rintro ⟨e, he⟩
      cases he
    · intro hmem
      exact absurd (by simpa using hmem) h

theorem astOperand1Set_eq (st : AstState) (p c fuel : Nat)
    (hop1 : st.op1 p = none) :
    astOperand1Set st p (some c) fuel =
      (match astParentSet st (astTop st.par fuel c) (some p) fuel with
       | Except.error e => Except.error e
       | Except.ok st2 =>
         Except.ok { st2 with op1 := updMap st2.op1 p (some (astTop st.par fuel c)) }) := by
  unfold astOperand1Set
  rw [hop1]

theorem astOperand2Set_eq (st : AstState) (p c fuel : Nat)
    (hop2 : st.op2 p = none) :
    astOperand2Set st p (some c) fuel =
      (match astParentSet st (astTop st.par fuel c) (some p) fuel with
       | Except.error e => Except.error e
       | Except.ok st2 =>
         Except.ok { st2 with op2 := updMap st2.op2 p (some (astTop st.par fuel c)) }) := by
  unfold astOperand2Set
  rw [hop2]

/-- C7: attaching a subtree through `astOperand1`/`astOperand2` performs
the `astParent` cycle check: the attachment raises the hard
cycle-dependency failure exactly when the grafted node (the attached
operand's topmost ancestor) already lies on the proposed parent's
parent chain; in particular it fails whenever the proposed parent is
reachable from the node being attached by following parent links, so a
reattachment that would make a node its own ancestor never silently
succeeds. -/
theorem ast_attach_cycle_guard :
    ∀ (st : AstState) (p c fuel : Nat),
      st.op1 p = none → st.op2 p = none →
      parIter st.par fuel (some c) = none →
      ((∃ e, astOperand1Set st p (some c) fuel = Except.error e) ↔
        astTop st.par fuel c ∈ chainList st.par fuel (some p)) ∧
      ((∃ e, astOperand2Set st p (some c) fuel = Except.error e) ↔
        astTop st.par fuel c ∈ chainList st.par fuel (some p)) ∧
      (p ∈ chainList st.par fuel (some (astTop st.par fuel c)) →
        (∃ e, astOperand1Set st p (some c) fuel = Except.error e) ∧
        (∃ e, astOperand2Set st p (some c) fuel = Except.error e)) := by
  intro st p c fuel hop1 hop2 hc
  have hiff1 : (∃ e, astOperand1Set st p (some c) fuel = Except.error e) ↔
      astTop st.par fuel c ∈ chainList st.par fuel (some p) := by
    rw [astOperand1Set_eq st p c fuel hop1]
    rw [← astParentSet_error_iff st (astTop st.par fuel c) (some p) fuel]
    cases hps : astParentSet st (astTop st.par fuel c) (some p) fuel with
    | error e =>
      constructor
      · intro _
        exact ⟨e, rfl⟩
      · intro _
        exact ⟨e, rfl⟩
    | ok st2 =>
      constructor
      · rintro ⟨e, he⟩
        cases he
      · rintro ⟨e, he⟩
        cases he
  have hiff2 : (∃ e, astOperand2Set st p (some c) fuel = Except.error e) ↔
      astTop st.par fuel c ∈ chainList st.par fuel (some p) := by
    rw [astOperand2Set_eq st p c fuel hop2]
    rw [← astParentSet_error_iff st (astTop st.par fuel c) (some p) fuel]
    cases hps : astParentSet st (astTop st.par fuel c) (some p) fuel with
    | error e =>
      constructor
      · intro _
        exact ⟨e, rfl⟩
      · intro _
        exact ⟨e, rfl⟩
    | ok st2 =>
      constructor
      · rintro ⟨e, he⟩
        cases he
      · rintro ⟨e, he⟩
        cases he
  refine ⟨hiff1, hiff2, ?_⟩
  intro hpmem
  have htopn : st.par (astTop st.par fuel c) = none := astTop_par_none st.par fuel c hc
  have hfpos : 0 < fuel := parIter_pos st.par fuel c hc
  obtain ⟨f, rfl⟩ : ∃ f, fuel = f + 1 := ⟨fuel - 1, by omega⟩
  have hchain : chainList st.par (f + 1) (some (astTop st.par (f + 1) c)) =
      [astTop st.par (f + 1) c] := by
    show astTop st.par (f + 1) c :: chainList st.par f (st.par (astTop st.par (f + 1) c)) =
      [astTop st.par (f + 1) c]
    rw [htopn, chainList_none]
  rw [hchain] at hpmem
  have hp : p = astTop st.par (f + 1) c := by simpa using hpmem
  have hmem : astTop st.par (f + 1) c ∈ chainList st.par (f + 1) (some p) := by
    rw [hp]
    show astTop st.par (f + 1) c ∈
      astTop st.par (f + 1) c :: chainList st.par f (st.par (astTop st.par (f + 1) c))
    exact List.mem_cons_self ..
  exact ⟨hiff1.mpr hmem, hiff2.mpr hmem⟩

/-- Witness for C7: a two-node state in which node 1's parent is node 0;
grafting node 1 (whose topmost ancestor is node 0) under node 0 itself
raises the cycle failure through both operand setters. -/
theorem ast_attach_cycle_guard_witness :
    (∃ e, astOperand1Set ⟨fun n => if n = 1 then some 0 else none,
        fun _ => none, fun _ => none⟩ 0 (some 1) 3 = Except.error e) ∧
    (∃ e, astOperand2Set ⟨fun n => if n = 1 then some 0 else none,
        fun _ => none, fun _ => none⟩ 0 (some 1) 3 = Except.error e) := by
  have h := ast_attach_cycle_guard
    ⟨fun n => if n = 1 then some 0 else none, fun _ => none, fun _ => none⟩
    0 1 3 rfl rfl rfl
  exact ⟨h.1.mpr (by decide), h.2.1.mpr (by decide)⟩

end Cppcheck
